import Mathlib

/-!
Shallow embedding of the `FSStorage` component of `src/storage.py`
(a local file-system storage with an in-memory write-through cache).

Modelling conventions:
* Path strings and store keys are `List Char` (`PStr`); string concatenation
  in the Python source becomes list append.  `path.split("/")` is embedded by
  `splitCh` below, which mirrors the Python semantics exactly (keeps empty
  segments, always returns at least one segment).
* File contents are `Bytes := List Nat`.
* File-like objects (the `file` argument of `put`, the values stored in
  `self._cache`) live in a heap `streams : List FileStream`; the cache maps
  store keys to heap indices, which models the aliasing of the Python object
  references (closing the stream through one reference is visible through the
  other).
* The filesystem is a pair of an association list `files` (regular files) and
  a list `dirs` (directories).  `os.path.exists` is true when either holds
  the path.
* `time()` is embedded as the strictly increasing logical clock `now`,
  incremented once per `put` insertion.
* The coroutine `put` is split into `putInsert` (everything before the first
  suspension point: the cache/timestamp/opened-times insertion) and
  `putFinish` (directory preparation, existence check, write, retirement,
  close).  `putFinish` takes the state it resumes in as an argument, which
  models arbitrary interleaving of other operations at the suspension
  points, and the timestamp recorded by `putInsert`.
* A low-level I/O error raised by the copy step (swallowed by the
  `except IOError: pass` in the source) is modelled by the oracle parameter
  `ioFault`; the `wb`-open also fails, independently of the oracle, when the
  destination is a directory or its parent is not a directory, matching the
  `OSError`s that `open` raises in those situations (all of them are
  subclasses of `IOError`, hence swallowed).
-/

instance {ε α : Type} [DecidableEq ε] [DecidableEq α] : DecidableEq (Except ε α) := fun a b =>
  match a, b with
  | Except.ok x, Except.ok y =>
    if h : x = y then isTrue (by rw [h]) else isFalse (fun hc => h (Except.ok.inj hc))
  | Except.error x, Except.error y =>
    if h : x = y then isTrue (by rw [h]) else isFalse (fun hc => h (Except.error.inj hc))
  | Except.ok _, Except.error _ => isFalse (fun hc => Except.noConfusion hc)
  | Except.error _, Except.ok _ => isFalse (fun hc => Except.noConfusion hc)

/-- A path / key string, as a list of characters. -/
abbrev PStr := List Char

/-- File contents, as a list of byte values. -/
abbrev Bytes := List Nat

/-- The dynamic type of a cached file object, mirroring the `isinstance`
branches of `FSStorage.get`: a blocking `BufferedIOBase`, an
`AsyncBufferedIOBase`, or an `AiofilesContextManager`. -/
inductive StreamKind where
  | syncBuffered
  | asyncBuffered
  | asyncCM
  deriving DecidableEq

/-- A file-like object: its byte contents and whether it has been closed. -/
structure FileStream where
  kind : StreamKind
  contents : Bytes
  closed : Bool
  deriving DecidableEq

/-- A reference to a file-like object (index into the stream heap). -/
abbrev StreamId := Nat

/-- The state of the `FSStorage` singleton together with the filesystem it
acts on.  `files`, `dirs` model the disk; `cache`, `updatedAt`,
`cacheOpenedTimes` are the fields `_cache`, `_updated_at`,
`_cache_opened_times`; `streams` is the heap of file objects; `now` is the
logical clock standing for `time()`. -/
structure FSState where
  baseDataPath : PStr
  files : List (PStr × Bytes)
  dirs : List PStr
  cache : List (PStr × StreamId)
  updatedAt : List (PStr × Nat)
  cacheOpenedTimes : List (PStr × Nat)
  streams : List FileStream
  now : Nat
  deriving DecidableEq

/-- Dictionary lookup (`d.get(k, None)` / `d[k]`). -/
def getEntry {β : Type} : List (PStr × β) → PStr → Option β
  | [], _ => none
  | (k, v) :: rest, key => if k = key then some v else getEntry rest key

/-- Dictionary removal (`del d[k]`, no error when absent). -/
def eraseEntry {β : Type} : List (PStr × β) → PStr → List (PStr × β)
  | [], _ => []
  | e :: rest, key => if e.1 = key then eraseEntry rest key else e :: eraseEntry rest key

/-- Dictionary update (`d[k] = v`). -/
def setEntry {β : Type} (l : List (PStr × β)) (key : PStr) (v : β) : List (PStr × β) :=
  (key, v) :: eraseEntry l key

/-- Boolean list membership (used for the directory set). -/
def memb (p : PStr) : List PStr → Bool
  | [] => false
  | d :: rest => if d = p then true else memb p rest

/-- `os.path.exists`: true when a regular file or a directory is present at
the path. -/
def pexists (files : List (PStr × Bytes)) (dirs : List PStr) (p : PStr) : Bool :=
  (getEntry files p).isSome || memb p dirs

/-- `os.path.exists` on the filesystem of a state. -/
def pathExists (s : FSState) (p : PStr) : Bool :=
  pexists s.files s.dirs p

/-- `path.split(c)` as in Python: first segment and remaining segments
(the result list is the head consed onto the tail; empty segments are
kept, and splitting the empty string yields one empty segment). -/
def splitCh (c : Char) : PStr → PStr × List PStr
  | [] => ([], [])
  | a :: rest =>
    let r := splitCh c rest
    if a = c then ([], r.1 :: r.2) else (a :: r.1, r.2)

/-- Left fold joining path segments with `/`, as the loop of
`_prepare_path` does with `current_path / sub_path`. -/
def joinF (cur : PStr) (segs : List PStr) : PStr :=
  segs.foldl (fun a seg => a ++ '/' :: seg) cur

/-- The directory paths visited by the loop of `_prepare_path` after the
base directory: each proper join prefix of the walk. -/
def chainAcc (cur : PStr) : List PStr → List PStr
  | [] => []
  | seg :: rest => (cur ++ '/' :: seg) :: chainAcc (cur ++ '/' :: seg) rest

/-- All directories of the chain `<base>`, `<base>/<seg1>`, ...,
`<base>/<path>` that `_prepare_path base path` walks. -/
def chainDirs (base path : PStr) : List PStr :=
  base :: chainAcc base ((splitCh '/' path).1 :: (splitCh '/' path).2)

/-- The store key: `path + "_" + name`. -/
def storeKey (path name : PStr) : PStr :=
  path ++ '_' :: name

/-- The destination path `<base>/<path>/<name>` (the string produced both by
`PurePath(base) / path / name` in `get` and by the string concatenation in
`delete`; the path built by `put` through `_prepare_path` is proved equal to
it below). -/
def filePathStr (base path name : PStr) : PStr :=
  base ++ '/' :: (path ++ '/' :: name)

/-- Contents of the stream at a heap index (empty for a dangling index). -/
def streamContents (s : FSState) (sid : StreamId) : Bytes :=
  (s.streams[sid]?.map FileStream.contents).getD []

/-- Dynamic type of the stream at a heap index. -/
def streamKindAt (s : FSState) (sid : StreamId) : StreamKind :=
  (s.streams[sid]?.map FileStream.kind).getD StreamKind.syncBuffered

/-- Closed flag of the stream at a heap index (`none` for a dangling
index). -/
def streamClosedAt (s : FSState) (sid : StreamId) : Option Bool :=
  s.streams[sid]?.map FileStream.closed

/-- Update the list element at an index in place. -/
def modifyIdx {α : Type} : List α → Nat → (α → α) → List α
  | [], _, _ => []
  | x :: xs, 0, f => f x :: xs
  | x :: xs, n + 1, f => x :: modifyIdx xs n f

/-- `file.close()` on the stream heap. -/
def closeStreams (l : List FileStream) (sid : StreamId) : List FileStream :=
  modifyIdx l sid (fun st => { st with closed := true })

/-- Modelled from the spec: the generic stream-copy collaborator
`copy(source, destination)` of `src/utils` (absent from `src/`), which per
section 6 of the specification reads the source to completion and writes
every byte, in order, to the destination.  In this embedding it is the
identity on byte sequences. -/
def copyBytes (source : Bytes) : Bytes :=
  source

/-- The loop of `_prepare_path` over the segments after the base directory:
for each next chain element, skip it when something exists at that path,
otherwise `mkdir` it.  `mkdir` succeeds only when the current (parent) path
is a directory; otherwise the `OSError` it raises is not a
`FileExistsError` and propagates (`error`).  Returns the grown directory
set and, on success, the final directory path. -/
def prepareWalkDirs (files : List (PStr × Bytes)) (dirs : List PStr) (cur : PStr) :
    List PStr → List PStr × Except Unit PStr
  | [] => (dirs, Except.ok cur)
  | seg :: rest =>
    if pexists files dirs (cur ++ '/' :: seg) then
      prepareWalkDirs files dirs (cur ++ '/' :: seg) rest
    else if memb cur dirs then
      prepareWalkDirs files ((cur ++ '/' :: seg) :: dirs) (cur ++ '/' :: seg) rest
    else (dirs, Except.error ())

/-- `FSStorage._prepare_path`: walk `[base] + path.split("/")` creating each
missing directory; the base directory is created first (its parent, the
working directory, always exists).  Mutates only the directory set of the
state; returns the resolved directory path on success. -/
def preparePath (s : FSState) (path : PStr) : FSState × Except Unit PStr :=
  let dirs0 := if pathExists s s.baseDataPath then s.dirs else s.baseDataPath :: s.dirs
  let pr := prepareWalkDirs s.files dirs0 s.baseDataPath
    ((splitCh '/' path).1 :: (splitCh '/' path).2)
  ({ s with dirs := pr.1 }, pr.2)

/-- The first phase of `FSStorage.put`, up to the first suspension point:
insert the stream into the cache, record `updated_at = time()`, initialize
the opened-times counter to 0.  Returns the recorded timestamp. -/
def putInsert (s : FSState) (path name : PStr) (fileId : StreamId) : FSState × Nat :=
  let key := storeKey path name
  let t := s.now
  ({ s with
      cache := setEntry s.cache key fileId,
      updatedAt := setEntry s.updatedAt key t,
      cacheOpenedTimes := setEntry s.cacheOpenedTimes key 0,
      now := s.now + 1 }, t)

/-- The write step of `put`: `open(file_path, "wb")` followed by
`copy(file, storage_file)`, inside `try ... except IOError: pass`.  The
open fails (and the error is swallowed, leaving the disk unchanged) when
the destination is a directory or its parent `dir` is not a directory; an
environment-chosen fault during the copy (`ioFault`) leaves the freshly
truncated, empty destination file behind. -/
def putWriteFiles (s1 : FSState) (dir fp : PStr) (fileId : StreamId) (ioFault : Bool) :
    List (PStr × Bytes) :=
  if memb fp s1.dirs || !(memb dir s1.dirs) then s1.files
  else if ioFault then setEntry s1.files fp []
  else setEntry s1.files fp (copyBytes (streamContents s1 fileId))

/-- The write step of `put`, as a state transformer: only the file map
changes. -/
def putWriteState (s1 : FSState) (dir fp : PStr) (fileId : StreamId) (ioFault : Bool) :
    FSState :=
  { s1 with files := putWriteFiles s1 dir fp fileId ioFault }

/-- The retirement step of `put`: remove the cache and timestamp entries
when the key is still in the timestamp map with exactly the recorded
timestamp. -/
def putRetire (s2 : FSState) (key : PStr) (t : Nat) : FSState :=
  if getEntry s2.updatedAt key = some t then
    { s2 with cache := eraseEntry s2.cache key, updatedAt := eraseEntry s2.updatedAt key }
  else s2

/-- The final `file.close()` of `put`. -/
def putClose (s3 : FSState) (fileId : StreamId) : FSState :=
  { s3 with streams := closeStreams s3.streams fileId }

/-- Errors raised by `put`: the "File already existing." `RuntimeError`, or
an `OSError` propagating out of `_prepare_path`. -/
inductive PutError where
  | alreadyExists
  | osError
  deriving DecidableEq

/-- The second phase of `FSStorage.put`, resumed in an arbitrary state `s`
with the timestamp `t` recorded at insertion: prepare the directory chain,
raise "File already existing." when `force` is false and the destination
exists, otherwise write (faults swallowed), retire the cache entry when the
timestamp still matches, and close the input stream.  On the two error
paths the function raises before reaching the retirement and close steps. -/
def putFinish (s : FSState) (path name : PStr) (fileId : StreamId) (force : Bool)
    (t : Nat) (ioFault : Bool) : FSState × Except PutError Unit :=
  let key := storeKey path name
  match preparePath s path with
  | (s1, Except.error _) => (s1, Except.error PutError.osError)
  | (s1, Except.ok dir) =>
    let fp := dir ++ '/' :: name
    if !force && pathExists s1 fp then (s1, Except.error PutError.alreadyExists)
    else (putClose (putRetire (putWriteState s1 dir fp fileId ioFault) key t) fileId,
          Except.ok ())

/-- `FSStorage.put` run without interleaving: the insertion phase followed
immediately by the finish phase. -/
def FSStorage.put (s : FSState) (path name : PStr) (fileId : StreamId) (force ioFault : Bool) :
    FSState × Except PutError Unit :=
  let ins := putInsert s path name fileId
  putFinish ins.1 path name fileId force ins.2 ioFault

/-- The non-blocking scoped-acquisition wrapper returned by `get` on a cache
hit with `sync = False`: the adjusted `AiofilesContextManager` whose
`__aexit__` only sets `self._obj = None`. -/
structure ScopedCM where
  obj : Option StreamId
  deriving DecidableEq

/-- The adjusted `__aexit__`: detach the wrapper (`self._obj = None`); the
state is returned untouched because the override does not close the
underlying stream. -/
def scopedRelease (s : FSState) (_cm : ScopedCM) : FSState × ScopedCM :=
  (s, { obj := none })

/-- The value returned by `FSStorage.get`. -/
inductive Handle where
  /-- Cache hit, `sync = False`: the adjusted context manager wrapping the
  cached stream. -/
  | scopedCM (cm : ScopedCM)
  /-- Cache hit, `sync = True`, cached object already a `BufferedIOBase`:
  the cached stream itself. -/
  | syncDirect (sid : StreamId)
  /-- Cache hit, `sync = True`, other kinds: the result of `wrap_obj`. -/
  | syncWrapped (contents : Bytes)
  /-- Disk hit, `sync = True`: `open(file_path, "rb")`. -/
  | diskSync (contents : Bytes)
  /-- Disk hit, `sync = False`: the lazy `aiofiles.open(file_path, "rb")`
  context manager; `none` contents when the path is a directory, in which
  case entering the manager raises. -/
  | diskAsync (data : Option Bytes)
  deriving DecidableEq

/-- Modelled from the spec: the adapter factory `wrap_obj(file, sync)` of
`src/utils` (absent from `src/`), which per section 6 of the specification
returns an object exposing the blocking read interface over the in-memory
byte buffer. -/
def wrap_obj (contents : Bytes) : Handle :=
  Handle.syncWrapped contents

/-- Whether a handle came from the cache. -/
def Handle.fromCache : Handle → Bool
  | Handle.scopedCM _ => true
  | Handle.syncDirect _ => true
  | Handle.syncWrapped _ => true
  | _ => false

/-- Whether a handle can actually be read (the lazy disk manager over a
directory cannot; a detached scoped wrapper cannot). -/
def Handle.readable : Handle → Bool
  | Handle.scopedCM cm => cm.obj.isSome
  | Handle.diskAsync none => false
  | _ => true

/-- The bytes readable through a handle in a given state. -/
def handleContents (s : FSState) : Handle → Bytes
  | Handle.scopedCM cm => (cm.obj.map (streamContents s)).getD []
  | Handle.syncDirect sid => streamContents s sid
  | Handle.syncWrapped data => data
  | Handle.diskSync data => data
  | Handle.diskAsync data => data.getD []

/-- Errors raised by `get`: the shared "File not existing." `RuntimeError`,
or the `IsADirectoryError` of `open(file_path, "rb")` on a directory. -/
inductive GetError where
  | fileNotExisting
  | isADirectory
  deriving DecidableEq

/-- `FSStorage.get`: serve the key from the cache when present (wrapping
according to `sync` and the dynamic type of the cached object), otherwise
from disk; raise "File not existing." when neither holds the key.  `get`
performs no state mutation (in particular the opened-times counter is never
touched), so it returns only the handle. -/
def FSStorage.get (s : FSState) (path name : PStr) (sync : Bool) : Except GetError Handle :=
  match getEntry s.cache (storeKey path name) with
  | some sid =>
    if !sync then Except.ok (Handle.scopedCM { obj := some sid })
    else if streamKindAt s sid = StreamKind.syncBuffered then
      Except.ok (Handle.syncDirect sid)
    else Except.ok (wrap_obj (streamContents s sid))
  | none =>
    let fp := filePathStr s.baseDataPath path name
    if pathExists s fp then
      if sync then
        match getEntry s.files fp with
        | some data => Except.ok (Handle.diskSync data)
        | none => Except.error GetError.isADirectory
      else Except.ok (Handle.diskAsync (getEntry s.files fp))
    else Except.error GetError.fileNotExisting

/-- Error propagating out of `delete`: `os.remove` on a directory raises an
`OSError` that is not a `FileNotFoundError`. -/
inductive DelError where
  | isADirectory
  deriving DecidableEq

/-- `FSStorage.delete`: drop the timestamp and cache entries when present,
then `os.remove` the on-disk file — `True` when it existed, `False` on
`FileNotFoundError`; `os.remove` of a directory raises. -/
def FSStorage.delete (s : FSState) (path name : PStr) : FSState × Except DelError Bool :=
  let key := storeKey path name
  let s1 := { s with
      updatedAt := eraseEntry s.updatedAt key,
      cache := eraseEntry s.cache key }
  let fp := filePathStr s.baseDataPath path name
  match getEntry s1.files fp with
  | some _ => ({ s1 with files := eraseEntry s1.files fp }, Except.ok true)
  | none =>
    if memb fp s1.dirs then (s1, Except.error DelError.isADirectory)
    else (s1, Except.ok false)

/-- `FSStorage.__init__` (default base data path is `.cache`; the base is a
parameter here), over an initial filesystem. -/
def initState (base : PStr) (files : List (PStr × Bytes)) (dirs : List PStr)
    (streams : List FileStream) : FSState :=
  { baseDataPath := base
    files := files
    dirs := dirs
    cache := []
    updatedAt := []
    cacheOpenedTimes := []
    streams := streams
    now := 0 }

/-! ### Association-list, membership and heap lemmas -/

theorem getEntry_setEntry_self {β : Type} (l : List (PStr × β)) (k : PStr) (v : β) :
    getEntry (setEntry l k v) k = some v := by
  simp [setEntry, getEntry]

theorem getEntry_eraseEntry_self {β : Type} (l : List (PStr × β)) (k : PStr) :
    getEntry (eraseEntry l k) k = none := by
  induction l with
  | nil => rfl
  | cons e rest ih =>
    simp only [eraseEntry]
    by_cases h : e.1 = k
    · rw [if_pos h]; exact ih
    · rw [if_neg h]
      simp only [getEntry]
      rcases e with ⟨k1, v1⟩
      rw [if_neg h]
      exact ih

theorem getEntry_eraseEntry_ne {β : Type} (l : List (PStr × β)) (k k' : PStr)
    (h : k' ≠ k) : getEntry (eraseEntry l k) k' = getEntry l k' := by
  induction l with
  | nil => rfl
  | cons e rest ih =>
    rcases e with ⟨k1, v1⟩
    simp only [eraseEntry]
    by_cases he : k1 = k
    · rw [if_pos he, ih]
      have hne : ¬ k1 = k' := by rw [he]; intro hk; exact h hk.symm
      simp only [getEntry]
      rw [if_neg hne]
    · rw [if_neg he]
      simp only [getEntry]
      by_cases he' : k1 = k'
      · rw [if_pos he', if_pos he']
      · rw [if_neg he', if_neg he']
        exact ih

theorem getEntry_setEntry_ne {β : Type} (l : List (PStr × β)) (k k' : PStr) (v : β)
    (h : k' ≠ k) : getEntry (setEntry l k v) k' = getEntry l k' := by
  have hne : k ≠ k' := fun hk => h hk.symm
  simp [setEntry, getEntry, hne, getEntry_eraseEntry_ne l k k' h]

theorem memb_iff (p : PStr) (l : List PStr) : memb p l = true ↔ p ∈ l := by
  induction l with
  | nil => simp [memb]
  | cons d rest ih =>
    by_cases h : d = p
    · simp [memb, h]
    · have : ¬p = d := fun hp => h hp.symm
      simp [memb, h, ih, this]

theorem pexists_mono (files : List (PStr × Bytes)) (dirs dirs' : List PStr) (p : PStr)
    (hsub : ∀ y ∈ dirs, y ∈ dirs') (h : pexists files dirs p = true) :
    pexists files dirs' p = true := by
  rcases Bool.or_eq_true_iff.mp h with hf | hd
  · exact Bool.or_eq_true_iff.mpr (Or.inl hf)
  · exact Bool.or_eq_true_iff.mpr (Or.inr ((memb_iff p dirs').mpr (hsub p ((memb_iff p dirs).mp hd))))

theorem modifyIdx_getElem_self {α : Type} (f : α → α) :
    ∀ (l : List α) (i : Nat), (modifyIdx l i f)[i]? = l[i]?.map f := by
  intro l
  induction l with
  | nil => intro i; simp [modifyIdx]
  | cons x xs ih =>
    intro i
    cases i with
    | zero => simp [modifyIdx]
    | succ n => simpa [modifyIdx] using ih n

/-! ### Path-joining lemmas: the walk of `_prepare_path` rebuilds
`<base>/<path>` from the split segments -/

theorem joinF_cons (cur seg : PStr) (rest : List PStr) :
    joinF cur (seg :: rest) = joinF (cur ++ '/' :: seg) rest := rfl

theorem joinF_splitCh_aux :
    ∀ (s pre b : PStr),
      joinF b ((pre ++ (splitCh '/' s).1) :: (splitCh '/' s).2) = b ++ '/' :: (pre ++ s) := by
  intro s
  induction s with
  | nil => intro pre b; simp [splitCh, joinF]
  | cons a rest ih =>
    intro pre b
    by_cases h : a = '/'
    · subst h
      have hsp : splitCh '/' ('/' :: rest)
          = ([], (splitCh '/' rest).1 :: (splitCh '/' rest).2) := by
        simp [splitCh]
      rw [hsp, List.append_nil, joinF_cons]
      have step := ih [] (b ++ '/' :: pre)
      rw [List.nil_append, List.nil_append] at step
      rw [step]
      simp
    · have hsp : splitCh '/' (a :: rest)
          = (a :: (splitCh '/' rest).1, (splitCh '/' rest).2) := by
        simp [splitCh, h]
      rw [hsp]
      have step := ih (pre ++ [a]) b
      have heq : (pre ++ [a]) ++ (splitCh '/' rest).1 = pre ++ a :: (splitCh '/' rest).1 := by
        simp
      rw [heq] at step
      rw [step]
      simp

theorem joinF_splitCh (s b : PStr) :
    joinF b ((splitCh '/' s).1 :: (splitCh '/' s).2) = b ++ '/' :: s := by
  simpa using joinF_splitCh_aux s [] b

theorem length_le_joinF (segs : List PStr) :
    ∀ cur : PStr, cur.length ≤ (joinF cur segs).length := by
  induction segs with
  | nil => intro cur; simp [joinF]
  | cons seg rest ih =>
    intro cur
    calc cur.length ≤ (cur ++ '/' :: seg).length := by simp
    _ ≤ (joinF (cur ++ '/' :: seg) rest).length := ih _

theorem chainAcc_length_le (segs : List PStr) :
    ∀ (cur x : PStr), x ∈ chainAcc cur segs → x.length ≤ (joinF cur segs).length := by
  induction segs with
  | nil => intro cur x hx; simp [chainAcc] at hx
  | cons seg rest ih =>
    intro cur x hx
    rcases List.mem_cons.mp hx with hx | hx
    · subst hx
      rw [joinF_cons]
      exact length_le_joinF rest _
    · rw [joinF_cons]
      exact ih _ x hx

theorem joinF_length_lt_append (cur : PStr) (segs : List PStr) (name : PStr) (x : PStr)
    (hx : x ∈ chainAcc cur segs) :
    x.length < (joinF cur segs ++ '/' :: name).length := by
  have h1 := chainAcc_length_le segs cur x hx
  have : (joinF cur segs).length < (joinF cur segs ++ '/' :: name).length := by simp
  omega

/-! ### Lemmas about the directory-creation walk -/

theorem prepareWalkDirs_mono (files : List (PStr × Bytes)) :
    ∀ (segs : List PStr) (dirs : List PStr) (cur x : PStr),
      x ∈ dirs → x ∈ (prepareWalkDirs files dirs cur segs).1 := by
  intro segs
  induction segs with
  | nil => intro dirs cur x hx; simpa [prepareWalkDirs] using hx
  | cons seg rest ih =>
    intro dirs cur x hx
    simp only [prepareWalkDirs]
    split
    · exact ih dirs _ x hx
    · split
      · exact ih _ _ x (List.mem_cons_of_mem _ hx)
      · simpa using hx

theorem prepareWalkDirs_ok_dir (files : List (PStr × Bytes)) :
    ∀ (segs : List PStr) (dirs : List PStr) (cur d : PStr),
      (prepareWalkDirs files dirs cur segs).2 = Except.ok d → d = joinF cur segs := by
  intro segs
  induction segs with
  | nil =>
    intro dirs cur d h
    simp only [prepareWalkDirs] at h
    cases h
    rfl
  | cons seg rest ih =>
    intro dirs cur d h
    simp only [prepareWalkDirs] at h
    rw [joinF_cons]
    split at h
    · exact ih dirs _ d h
    · split at h
      · exact ih _ _ d h
      · cases h

theorem prepareWalkDirs_dirs_from (files : List (PStr × Bytes)) :
    ∀ (segs : List PStr) (dirs : List PStr) (cur x : PStr),
      x ∈ (prepareWalkDirs files dirs cur segs).1 → x ∈ dirs ∨ x ∈ chainAcc cur segs := by
  intro segs
  induction segs with
  | nil => intro dirs cur x hx; simpa [prepareWalkDirs] using Or.inl hx
  | cons seg rest ih =>
    intro dirs cur x hx
    simp only [prepareWalkDirs] at hx
    split at hx
    · rcases ih dirs _ x hx with h | h
      · exact Or.inl h
      · exact Or.inr (List.mem_cons_of_mem _ h)
    · split at hx
      · rcases ih _ _ x hx with h | h
        · rcases List.mem_cons.mp h with h | h
          · exact Or.inr (by simp [chainAcc, h])
          · exact Or.inl h
        · exact Or.inr (List.mem_cons_of_mem _ h)
      · exact Or.inl hx

theorem prepareWalkDirs_covers (files : List (PStr × Bytes)) :
    ∀ (segs : List PStr) (dirs : List PStr) (cur d : PStr),
      (prepareWalkDirs files dirs cur segs).2 = Except.ok d →
      ∀ x ∈ chainAcc cur segs, pexists files (prepareWalkDirs files dirs cur segs).1 x = true := by
  intro segs
  induction segs with
  | nil => intro dirs cur d _ x hx; simp [chainAcc] at hx
  | cons seg rest ih =>
    intro dirs cur d h x hx
    by_cases hex : pexists files dirs (cur ++ '/' :: seg) = true
    · simp only [prepareWalkDirs] at h ⊢
      rw [if_pos hex] at h ⊢
      rcases List.mem_cons.mp hx with hx1 | hx1
      · subst hx1
        exact pexists_mono files dirs _ _
          (fun y hy => prepareWalkDirs_mono files rest dirs _ y hy) hex
      · exact ih dirs _ d h x hx1
    · by_cases hcur : memb cur dirs = true
      · simp only [prepareWalkDirs] at h ⊢
        rw [if_neg hex, if_pos hcur] at h ⊢
        rcases List.mem_cons.mp hx with hx1 | hx1
        · subst hx1
          refine Bool.or_eq_true_iff.mpr (Or.inr ((memb_iff _ _).mpr ?_))
          exact prepareWalkDirs_mono files rest _ _ _ (List.mem_cons_self _ _)
        · exact ih _ _ d h x hx1
      · simp only [prepareWalkDirs] at h
        rw [if_neg hex, if_neg hcur] at h
        cases h

theorem prepareWalkDirs_ok_of_clean (files : List (PStr × Bytes)) :
    ∀ (segs : List PStr) (dirs : List PStr) (cur : PStr),
      memb cur dirs = true →
      (∀ d ∈ chainAcc cur segs, getEntry files d = none) →
      (prepareWalkDirs files dirs cur segs).2 = Except.ok (joinF cur segs) := by
  intro segs
  induction segs with
  | nil => intro dirs cur _ _; simp [prepareWalkDirs, joinF]
  | cons seg rest ih =>
    intro dirs cur hcur hclean
    have hhead : getEntry files (cur ++ '/' :: seg) = none :=
      hclean _ (by simp [chainAcc])
    have htail : ∀ d ∈ chainAcc (cur ++ '/' :: seg) rest, getEntry files d = none :=
      fun d hd => hclean d (by simp [chainAcc, hd])
    simp only [prepareWalkDirs]
    rw [joinF_cons]
    by_cases hex : pexists files dirs (cur ++ '/' :: seg) = true
    · rw [if_pos hex]
      have hmem : memb (cur ++ '/' :: seg) dirs = true := by
        rcases Bool.or_eq_true_iff.mp hex with hf | hd
        · rw [hhead] at hf; simp at hf
        · exact hd
      exact ih dirs _ hmem htail
    · rw [if_neg hex, if_pos hcur]
      have hmem : memb (cur ++ '/' :: seg) ((cur ++ '/' :: seg) :: dirs) = true := by
        simp [memb]
      exact ih _ _ hmem htail

/-! ### Frame lemmas for the stages of `put` -/

theorem preparePath_files (s : FSState) (path : PStr) :
    (preparePath s path).1.files = s.files := rfl

theorem preparePath_cache (s : FSState) (path : PStr) :
    (preparePath s path).1.cache = s.cache := rfl

theorem preparePath_updatedAt (s : FSState) (path : PStr) :
    (preparePath s path).1.updatedAt = s.updatedAt := rfl

theorem preparePath_openedTimes (s : FSState) (path : PStr) :
    (preparePath s path).1.cacheOpenedTimes = s.cacheOpenedTimes := rfl

theorem preparePath_streams (s : FSState) (path : PStr) :
    (preparePath s path).1.streams = s.streams := rfl

theorem preparePath_base (s : FSState) (path : PStr) :
    (preparePath s path).1.baseDataPath = s.baseDataPath := rfl

theorem putWriteState_cache (s1 : FSState) (dir fp : PStr) (fileId : StreamId) (io : Bool) :
    (putWriteState s1 dir fp fileId io).cache = s1.cache := rfl

theorem putWriteState_updatedAt (s1 : FSState) (dir fp : PStr) (fileId : StreamId) (io : Bool) :
    (putWriteState s1 dir fp fileId io).updatedAt = s1.updatedAt := rfl

theorem putWriteState_openedTimes (s1 : FSState) (dir fp : PStr) (fileId : StreamId) (io : Bool) :
    (putWriteState s1 dir fp fileId io).cacheOpenedTimes = s1.cacheOpenedTimes := rfl

theorem putWriteState_streams (s1 : FSState) (dir fp : PStr) (fileId : StreamId) (io : Bool) :
    (putWriteState s1 dir fp fileId io).streams = s1.streams := rfl

theorem putWriteState_dirs (s1 : FSState) (dir fp : PStr) (fileId : StreamId) (io : Bool) :
    (putWriteState s1 dir fp fileId io).dirs = s1.dirs := rfl

theorem putRetire_files (s2 : FSState) (key : PStr) (t : Nat) :
    (putRetire s2 key t).files = s2.files := by
  unfold putRetire; split <;> rfl

theorem putRetire_dirs (s2 : FSState) (key : PStr) (t : Nat) :
    (putRetire s2 key t).dirs = s2.dirs := by
  unfold putRetire; split <;> rfl

theorem putRetire_streams (s2 : FSState) (key : PStr) (t : Nat) :
    (putRetire s2 key t).streams = s2.streams := by
  unfold putRetire; split <;> rfl

theorem putRetire_openedTimes (s2 : FSState) (key : PStr) (t : Nat) :
    (putRetire s2 key t).cacheOpenedTimes = s2.cacheOpenedTimes := by
  unfold putRetire; split <;> rfl

theorem putClose_files (s3 : FSState) (fileId : StreamId) :
    (putClose s3 fileId).files = s3.files := rfl

theorem putClose_cache (s3 : FSState) (fileId : StreamId) :
    (putClose s3 fileId).cache = s3.cache := rfl

theorem putClose_updatedAt (s3 : FSState) (fileId : StreamId) :
    (putClose s3 fileId).updatedAt = s3.updatedAt := rfl

theorem putClose_dirs (s3 : FSState) (fileId : StreamId) :
    (putClose s3 fileId).dirs = s3.dirs := rfl

theorem putClose_openedTimes (s3 : FSState) (fileId : StreamId) :
    (putClose s3 fileId).cacheOpenedTimes = s3.cacheOpenedTimes := rfl

/-! ### Claim C1 -/

/-- C1 (read-after-write): immediately after the insertion phase of
`put(path, name, data)` and before its retirement step, `get(path, name)`
(with the default non-blocking mode) answers from the cache entry — not
from disk — with a handle whose contents equal the contents of the stream
that was put. -/
theorem put_read_after_write (s : FSState) (path name : PStr) (fileId : StreamId) :
    FSStorage.get (putInsert s path name fileId).1 path name false
        = Except.ok (Handle.scopedCM { obj := some fileId }) ∧
    Handle.fromCache (Handle.scopedCM { obj := some fileId }) = true ∧
    handleContents (putInsert s path name fileId).1 (Handle.scopedCM { obj := some fileId })
        = streamContents s fileId := by
  refine ⟨?_, rfl, rfl⟩
  have hc : getEntry (putInsert s path name fileId).1.cache (storeKey path name)
      = some fileId := getEntry_setEntry_self s.cache (storeKey path name) fileId
  simp [FSStorage.get, hc]

/-! ### Claim C10 -/

/-- C10 (scoped release preserves the cached stream): on a cache hit with
`sync = False`, `get` returns the adjusted scoped wrapper around the cached
stream; releasing the wrapper (the overridden `__aexit__`) only detaches
the wrapper object and leaves the state — hence the cache entry, the
underlying stream and its closed flag — untouched, so a subsequent `get`
returns the same cached stream. -/
theorem get_scoped_release_preserves_stream (s : FSState) (path name : PStr) (sid : StreamId)
    (hhit : getEntry s.cache (storeKey path name) = some sid) :
    FSStorage.get s path name false = Except.ok (Handle.scopedCM { obj := some sid }) ∧
    (scopedRelease s { obj := some sid }).2 = { obj := none } ∧
    (scopedRelease s { obj := some sid }).1 = s ∧
    FSStorage.get (scopedRelease s { obj := some sid }).1 path name false
        = Except.ok (Handle.scopedCM { obj := some sid }) ∧
    streamClosedAt (scopedRelease s { obj := some sid }).1 sid = streamClosedAt s sid := by
  have hget : FSStorage.get s path name false = Except.ok (Handle.scopedCM { obj := some sid }) := by
    simp [FSStorage.get, hhit]
  exact ⟨hget, rfl, rfl, hget, rfl⟩

/-- A state with one cached entry for key `p_q` (stream 0 staged, not yet
persisted), as left by the insertion phase of a `put`. -/
def wsCacheHit : FSState :=
  (putInsert (initState ['r'] [] [] [⟨StreamKind.syncBuffered, [1, 2], false⟩]) ['p'] ['q'] 0).1

theorem get_scoped_release_preserves_stream_witness :
    getEntry wsCacheHit.cache (storeKey ['p'] ['q']) = some 0 ∧
    (FSStorage.get wsCacheHit ['p'] ['q'] false = Except.ok (Handle.scopedCM { obj := some 0 }) ∧
     (scopedRelease wsCacheHit { obj := some 0 }).2 = { obj := none } ∧
     (scopedRelease wsCacheHit { obj := some 0 }).1 = wsCacheHit ∧
     FSStorage.get (scopedRelease wsCacheHit { obj := some 0 }).1 ['p'] ['q'] false
         = Except.ok (Handle.scopedCM { obj := some 0 }) ∧
     streamClosedAt (scopedRelease wsCacheHit { obj := some 0 }).1 0
         = streamClosedAt wsCacheHit 0) :=
  ⟨by decide, get_scoped_release_preserves_stream wsCacheHit ['p'] ['q'] 0 (by decide)⟩

/-! ### Shape lemmas for `putFinish` and `putInsert` -/

theorem putInsert_streams (s : FSState) (path name : PStr) (fileId : StreamId) :
    (putInsert s path name fileId).1.streams = s.streams := rfl

theorem putInsert_files (s : FSState) (path name : PStr) (fileId : StreamId) :
    (putInsert s path name fileId).1.files = s.files := rfl

theorem putInsert_dirs (s : FSState) (path name : PStr) (fileId : StreamId) :
    (putInsert s path name fileId).1.dirs = s.dirs := rfl

theorem putInsert_base (s : FSState) (path name : PStr) (fileId : StreamId) :
    (putInsert s path name fileId).1.baseDataPath = s.baseDataPath := rfl

theorem putClose_streams (s3 : FSState) (fileId : StreamId) :
    (putClose s3 fileId).streams = closeStreams s3.streams fileId := rfl

theorem putFinish_prep_error (s : FSState) (path name : PStr) (fileId : StreamId)
    (force : Bool) (t : Nat) (ioFault : Bool) (s1 : FSState) (e : Unit)
    (hpr : preparePath s path = (s1, Except.error e)) :
    putFinish s path name fileId force t ioFault = (s1, Except.error PutError.osError) := by
  unfold putFinish
  rw [hpr]

theorem putFinish_conflict (s : FSState) (path name : PStr) (fileId : StreamId)
    (force : Bool) (t : Nat) (ioFault : Bool) (s1 : FSState) (dir : PStr)
    (hpr : preparePath s path = (s1, Except.ok dir))
    (hc : (!force && pathExists s1 (dir ++ '/' :: name)) = true) :
    putFinish s path name fileId force t ioFault = (s1, Except.error PutError.alreadyExists) := by
  unfold putFinish
  rw [hpr]
  simp [hc]

theorem putFinish_ok_shape (s : FSState) (path name : PStr) (fileId : StreamId)
    (force : Bool) (t : Nat) (ioFault : Bool) (s1 : FSState) (dir : PStr)
    (hpr : preparePath s path = (s1, Except.ok dir))
    (hnc : (!force && pathExists s1 (dir ++ '/' :: name)) = false) :
    putFinish s path name fileId force t ioFault
      = (putClose (putRetire (putWriteState s1 dir (dir ++ '/' :: name) fileId ioFault)
          (storeKey path name) t) fileId, Except.ok ()) := by
  unfold putFinish
  rw [hpr]
  simp [hnc]

theorem putFinish_ok_cases (s : FSState) (path name : PStr) (fileId : StreamId)
    (force : Bool) (t : Nat) (ioFault : Bool)
    (hok : (putFinish s path name fileId force t ioFault).2 = Except.ok ()) :
    ∃ s1 dir, preparePath s path = (s1, Except.ok dir) ∧
      (!force && pathExists s1 (dir ++ '/' :: name)) = false ∧
      putFinish s path name fileId force t ioFault
        = (putClose (putRetire (putWriteState s1 dir (dir ++ '/' :: name) fileId ioFault)
            (storeKey path name) t) fileId, Except.ok ()) := by
  rcases hpr : preparePath s path with ⟨s1, r⟩
  cases r with
  | error e =>
    rw [putFinish_prep_error s path name fileId force t ioFault s1 e hpr] at hok
    simp at hok
  | ok dir =>
    by_cases hc : (!force && pathExists s1 (dir ++ '/' :: name)) = true
    · rw [putFinish_conflict s path name fileId force t ioFault s1 dir hpr hc] at hok
      simp at hok
    · have hnc : (!force && pathExists s1 (dir ++ '/' :: name)) = false := by
        simpa using hc
      exact ⟨s1, dir, rfl, hnc, putFinish_ok_shape s path name fileId force t ioFault s1 dir hpr hnc⟩

/-! ### Claim C2 -/

/-- C2 (retirement guard): for a `put` that resolves (the raising exit
paths end the call before the retirement step), the cache entry and the
timestamp entry for its key are removed at the end if and only if the key
is still present in the timestamp map with exactly the timestamp recorded
by that same put at insertion; when the live timestamp differs (a newer
put superseded this one) or the key is gone (deleted meanwhile), both
entries are left exactly as the state the put resumed in has them — so
only the put whose write installed the current entry retires it. -/
theorem put_retirement_guard (s : FSState) (path name : PStr) (fileId : StreamId)
    (force ioFault : Bool) (t : Nat)
    (hok : (putFinish s path name fileId force t ioFault).2 = Except.ok ()) :
    (getEntry s.updatedAt (storeKey path name) = some t →
        getEntry (putFinish s path name fileId force t ioFault).1.cache
          (storeKey path name) = none ∧
        getEntry (putFinish s path name fileId force t ioFault).1.updatedAt
          (storeKey path name) = none) ∧
    (getEntry s.updatedAt (storeKey path name) ≠ some t →
        getEntry (putFinish s path name fileId force t ioFault).1.cache
            (storeKey path name)
          = getEntry s.cache (storeKey path name) ∧
        getEntry (putFinish s path name fileId force t ioFault).1.updatedAt
            (storeKey path name)
          = getEntry s.updatedAt (storeKey path name)) := by
  obtain ⟨s1, dir, hpr, hnc, heq⟩ :=
    putFinish_ok_cases s path name fileId force t ioFault hok
  have hs1 : s1 = (preparePath s path).1 := by rw [hpr]
  have hup : s1.updatedAt = s.updatedAt := by rw [hs1, preparePath_updatedAt]
  have hca : s1.cache = s.cache := by rw [hs1, preparePath_cache]
  rw [heq]
  simp only [putClose_cache, putClose_updatedAt]
  constructor
  · intro hmatch
    unfold putRetire
    rw [putWriteState_updatedAt, hup, if_pos hmatch]
    exact ⟨getEntry_eraseEntry_self _ _, getEntry_eraseEntry_self _ _⟩
  · intro hmiss
    unfold putRetire
    rw [putWriteState_updatedAt, hup, if_neg hmiss]
    rw [putWriteState_cache, putWriteState_updatedAt, hca, hup]
    exact ⟨rfl, rfl⟩

/-- A resumed-in state for the retirement guard: the key `p_q` is cached
with stream 0 and timestamp 5. -/
def wsRetire : FSState :=
  { baseDataPath := ['r']
    files := []
    dirs := []
    cache := [(storeKey ['p'] ['q'], 0)]
    updatedAt := [(storeKey ['p'] ['q'], 5)]
    cacheOpenedTimes := [(storeKey ['p'] ['q'], 0)]
    streams := [⟨StreamKind.syncBuffered, [1, 2], false⟩]
    now := 6 }

theorem put_retirement_guard_witness :
    (putFinish wsRetire ['p'] ['q'] 0 false 5 false).2 = Except.ok () ∧
    (getEntry wsRetire.updatedAt (storeKey ['p'] ['q']) = some 5 →
        getEntry (putFinish wsRetire ['p'] ['q'] 0 false 5 false).1.cache
          (storeKey ['p'] ['q']) = none ∧
        getEntry (putFinish wsRetire ['p'] ['q'] 0 false 5 false).1.updatedAt
          (storeKey ['p'] ['q']) = none) ∧
    (getEntry wsRetire.updatedAt (storeKey ['p'] ['q']) ≠ some 5 →
        getEntry (putFinish wsRetire ['p'] ['q'] 0 false 5 false).1.cache
            (storeKey ['p'] ['q'])
          = getEntry wsRetire.cache (storeKey ['p'] ['q']) ∧
        getEntry (putFinish wsRetire ['p'] ['q'] 0 false 5 false).1.updatedAt
            (storeKey ['p'] ['q'])
          = getEntry wsRetire.updatedAt (storeKey ['p'] ['q'])) :=
  ⟨by decide, put_retirement_guard wsRetire ['p'] ['q'] 0 false false 5 (by decide)⟩

/-! ### Claim C6 -/

/-- C6 (close of the input stream, as the code behaves): for every `put`
that resolves without raising — whether or not the entry was retired, and
whether the disk write succeeded or failed — the input stream is closed by
the end of the call.  (The claim additionally asserts closure on the
"already exists" failure path; the counterexample below shows the code
raises there before ever reaching `file.close()`.) -/
theorem put_closes_stream_when_resolving (s : FSState) (path name : PStr)
    (fileId : StreamId) (force ioFault : Bool)
    (hok : (FSStorage.put s path name fileId force ioFault).2 = Except.ok ())
    (hfid : fileId < s.streams.length) :
    streamClosedAt (FSStorage.put s path name fileId force ioFault).1 fileId = some true := by
  simp only [FSStorage.put] at hok ⊢
  obtain ⟨s1, dir, hpr, hnc, heq⟩ :=
    putFinish_ok_cases (putInsert s path name fileId).1 path name fileId force
      (putInsert s path name fileId).2 ioFault hok
  rw [heq]
  have hstr : s1.streams = s.streams := by
    have hs1 : s1 = (preparePath (putInsert s path name fileId).1 path).1 := by rw [hpr]
    rw [hs1, preparePath_streams, putInsert_streams]
  simp only [streamClosedAt, putClose_streams, putRetire_streams, putWriteState_streams, hstr]
  rw [closeStreams, modifyIdx_getElem_self, List.getElem?_eq_getElem hfid]
  rfl

theorem put_closes_stream_when_resolving_witness :
    (FSStorage.put wsCacheHit ['a'] ['b'] 0 false true).2 = Except.ok () ∧
    0 < wsCacheHit.streams.length ∧
    streamClosedAt (FSStorage.put wsCacheHit ['a'] ['b'] 0 false true).1 0 = some true :=
  ⟨by decide, by decide,
    put_closes_stream_when_resolving wsCacheHit ['a'] ['b'] 0 false true (by decide) (by decide)⟩

/-- A filesystem on which the destination file `r/p/q` already exists while
the input stream 0 is still open. -/
def cexAlready : FSState :=
  { baseDataPath := ['r']
    files := [(['r', '/', 'p', '/', 'q'], [9])]
    dirs := [['r'], ['r', '/', 'p']]
    cache := []
    updatedAt := []
    cacheOpenedTimes := []
    streams := [⟨StreamKind.syncBuffered, [1, 2], false⟩]
    now := 0 }

/-- C6 counterexample: on the "File already existing." failure path,
`put` raises before the final `file.close()` line, so the input stream is
left open — refuting the claim that the stream is closed on every exit
path including that one. -/
theorem put_already_exists_leaves_stream_open :
    (FSStorage.put cexAlready ['p'] ['q'] 0 false false).2
        = Except.error PutError.alreadyExists ∧
    streamClosedAt (FSStorage.put cexAlready ['p'] ['q'] 0 false false).1 0 = some false := by
  decide

/-! ### Claim C8 -/

theorem putRetireWrite_cache_eq (s1 : FSState) (dir fp : PStr) (fid : StreamId)
    (key : PStr) (t : Nat) :
    (putRetire (putWriteState s1 dir fp fid true) key t).cache
      = (putRetire (putWriteState s1 dir fp fid false) key t).cache := by
  unfold putRetire
  rw [putWriteState_updatedAt, putWriteState_updatedAt]
  by_cases h : getEntry s1.updatedAt key = some t
  · rw [if_pos h, if_pos h]
    show eraseEntry (putWriteState s1 dir fp fid true).cache key
        = eraseEntry (putWriteState s1 dir fp fid false).cache key
    rw [putWriteState_cache, putWriteState_cache]
  · rw [if_neg h, if_neg h]
    rw [putWriteState_cache, putWriteState_cache]

theorem putRetireWrite_updatedAt_eq (s1 : FSState) (dir fp : PStr) (fid : StreamId)
    (key : PStr) (t : Nat) :
    (putRetire (putWriteState s1 dir fp fid true) key t).updatedAt
      = (putRetire (putWriteState s1 dir fp fid false) key t).updatedAt := by
  unfold putRetire
  rw [putWriteState_updatedAt, putWriteState_updatedAt]
  by_cases h : getEntry s1.updatedAt key = some t
  · rw [if_pos h, if_pos h]
  · rw [if_neg h, if_neg h]
    rw [putWriteState_updatedAt, putWriteState_updatedAt]

/-- C8 (silent write failure): a `put` whose copy step raises a low-level
I/O error (the fault run, `ioFault = true`) still resolves successfully,
and its retirement step, stream close, cache, timestamp, opened-times and
directory state are exactly those of the corresponding fault-free run —
the caller is never informed; only the on-disk file map can differ. -/
theorem put_io_fault_silent (s : FSState) (path name : PStr) (fileId : StreamId)
    (force : Bool)
    (hok : (FSStorage.put s path name fileId force true).2 = Except.ok ()) :
    (FSStorage.put s path name fileId force false).2 = Except.ok () ∧
    (FSStorage.put s path name fileId force true).1.cache
      = (FSStorage.put s path name fileId force false).1.cache ∧
    (FSStorage.put s path name fileId force true).1.updatedAt
      = (FSStorage.put s path name fileId force false).1.updatedAt ∧
    (FSStorage.put s path name fileId force true).1.streams
      = (FSStorage.put s path name fileId force false).1.streams ∧
    (FSStorage.put s path name fileId force true).1.dirs
      = (FSStorage.put s path name fileId force false).1.dirs ∧
    (FSStorage.put s path name fileId force true).1.cacheOpenedTimes
      = (FSStorage.put s path name fileId force false).1.cacheOpenedTimes := by
  simp only [FSStorage.put] at hok ⊢
  obtain ⟨s1, dir, hpr, hnc, heqT⟩ :=
    putFinish_ok_cases (putInsert s path name fileId).1 path name fileId force
      (putInsert s path name fileId).2 true hok
  have heqF := putFinish_ok_shape (putInsert s path name fileId).1 path name fileId force
      (putInsert s path name fileId).2 false s1 dir hpr hnc
  rw [heqT, heqF]
  refine ⟨rfl, ?_, ?_, ?_, ?_, ?_⟩
  · rw [putClose_cache, putClose_cache]
    exact putRetireWrite_cache_eq s1 dir (dir ++ '/' :: name) fileId (storeKey path name) _
  · rw [putClose_updatedAt, putClose_updatedAt]
    exact putRetireWrite_updatedAt_eq s1 dir (dir ++ '/' :: name) fileId (storeKey path name) _
  · rw [putClose_streams, putClose_streams, putRetire_streams, putRetire_streams,
        putWriteState_streams, putWriteState_streams]
  · rw [putClose_dirs, putClose_dirs, putRetire_dirs, putRetire_dirs,
        putWriteState_dirs, putWriteState_dirs]
  · rw [putClose_openedTimes, putClose_openedTimes, putRetire_openedTimes,
        putRetire_openedTimes, putWriteState_openedTimes, putWriteState_openedTimes]

theorem put_io_fault_silent_witness :
    (FSStorage.put wsCacheHit ['a'] ['b'] 0 false true).2 = Except.ok () ∧
    ((FSStorage.put wsCacheHit ['a'] ['b'] 0 false false).2 = Except.ok () ∧
     (FSStorage.put wsCacheHit ['a'] ['b'] 0 false true).1.cache
       = (FSStorage.put wsCacheHit ['a'] ['b'] 0 false false).1.cache ∧
     (FSStorage.put wsCacheHit ['a'] ['b'] 0 false true).1.updatedAt
       = (FSStorage.put wsCacheHit ['a'] ['b'] 0 false false).1.updatedAt ∧
     (FSStorage.put wsCacheHit ['a'] ['b'] 0 false true).1.streams
       = (FSStorage.put wsCacheHit ['a'] ['b'] 0 false false).1.streams ∧
     (FSStorage.put wsCacheHit ['a'] ['b'] 0 false true).1.dirs
       = (FSStorage.put wsCacheHit ['a'] ['b'] 0 false false).1.dirs ∧
     (FSStorage.put wsCacheHit ['a'] ['b'] 0 false true).1.cacheOpenedTimes
       = (FSStorage.put wsCacheHit ['a'] ['b'] 0 false false).1.cacheOpenedTimes) :=
  ⟨by decide, put_io_fault_silent wsCacheHit ['a'] ['b'] 0 false (by decide)⟩

/-! ### Claim C5 -/

theorem delete_shape (s : FSState) (path name : PStr) :
    FSStorage.delete s path name
      = (match getEntry s.files (filePathStr s.baseDataPath path name) with
         | some _ =>
           ({ s with updatedAt := eraseEntry s.updatedAt (storeKey path name),
                     cache := eraseEntry s.cache (storeKey path name),
                     files := eraseEntry s.files (filePathStr s.baseDataPath path name) },
            Except.ok true)
         | none =>
           if memb (filePathStr s.baseDataPath path name) s.dirs then
             ({ s with updatedAt := eraseEntry s.updatedAt (storeKey path name),
                       cache := eraseEntry s.cache (storeKey path name) },
              Except.error DelError.isADirectory)
           else
             ({ s with updatedAt := eraseEntry s.updatedAt (storeKey path name),
                       cache := eraseEntry s.cache (storeKey path name) },
              Except.ok false)) := rfl

/-- C5 amended (delete result and idempotence, as the code behaves): for
every `(path, name)`, `delete` removes the cache and timestamp entries for
the key unconditionally when present (no error when absent), and returns
`true` if and only if a file existed for that key on disk — a key present
only in the cache yields `false` even though its entries are removed; when
no directory occupies the file path, a second `delete` on the same key
returns `false`. -/
theorem delete_removes_and_reports_disk (s : FSState) (path name : PStr) :
    getEntry (FSStorage.delete s path name).1.cache (storeKey path name) = none ∧
    getEntry (FSStorage.delete s path name).1.updatedAt (storeKey path name) = none ∧
    ((FSStorage.delete s path name).2 = Except.ok true ↔
      (getEntry s.files (filePathStr s.baseDataPath path name)).isSome = true) ∧
    (memb (filePathStr s.baseDataPath path name) s.dirs = false →
      (FSStorage.delete (FSStorage.delete s path name).1 path name).2 = Except.ok false) := by
  rcases hf : getEntry s.files (filePathStr s.baseDataPath path name) with _ | v
  · by_cases hm : memb (filePathStr s.baseDataPath path name) s.dirs = true
    · rw [delete_shape, hf]
      simp only [if_pos hm]
      refine ⟨getEntry_eraseEntry_self _ _, getEntry_eraseEntry_self _ _, by simp, ?_⟩
      intro hmf
      rw [hmf] at hm
      cases hm
    · have hm' : memb (filePathStr s.baseDataPath path name) s.dirs = false := by
        simpa using hm
      rw [delete_shape, hf]
      simp only [if_neg hm]
      refine ⟨getEntry_eraseEntry_self _ _, getEntry_eraseEntry_self _ _, by simp, ?_⟩
      intro _
      rw [delete_shape]
      have hf2 : getEntry
          ({ s with updatedAt := eraseEntry s.updatedAt (storeKey path name),
                    cache := eraseEntry s.cache (storeKey path name) } : FSState).files
          (filePathStr s.baseDataPath path name) = none := hf
      rw [hf2]
      simp [hm']
  · rw [delete_shape, hf]
    refine ⟨getEntry_eraseEntry_self _ _, getEntry_eraseEntry_self _ _, by simp, ?_⟩
    intro hm
    rw [delete_shape]
    have hf2 : getEntry
        ({ s with updatedAt := eraseEntry s.updatedAt (storeKey path name),
                  cache := eraseEntry s.cache (storeKey path name),
                  files := eraseEntry s.files (filePathStr s.baseDataPath path name) } :
          FSState).files
        (filePathStr s.baseDataPath path name) = none :=
      getEntry_eraseEntry_self _ _
    rw [hf2]
    simp [hm]

theorem delete_removes_and_reports_disk_witness :
    memb (filePathStr wsRetire.baseDataPath ['p'] ['q']) wsRetire.dirs = false ∧
    (getEntry (FSStorage.delete wsRetire ['p'] ['q']).1.cache (storeKey ['p'] ['q']) = none ∧
     getEntry (FSStorage.delete wsRetire ['p'] ['q']).1.updatedAt (storeKey ['p'] ['q']) = none ∧
     ((FSStorage.delete wsRetire ['p'] ['q']).2 = Except.ok true ↔
       (getEntry wsRetire.files (filePathStr wsRetire.baseDataPath ['p'] ['q'])).isSome = true) ∧
     (memb (filePathStr wsRetire.baseDataPath ['p'] ['q']) wsRetire.dirs = false →
       (FSStorage.delete (FSStorage.delete wsRetire ['p'] ['q']).1 ['p'] ['q']).2
         = Except.ok false)) :=
  ⟨by decide, delete_removes_and_reports_disk wsRetire ['p'] ['q']⟩

/-- C5 counterexample: the key `p_q` has a file staged in the cache (and
nothing on disk); `delete` still returns `false`, refuting the claim that
the first call returns `true` when a file existed "on disk or in cache". -/
theorem delete_cache_only_returns_false :
    getEntry wsCacheHit.cache (storeKey ['p'] ['q']) = some 0 ∧
    getEntry wsCacheHit.files (filePathStr wsCacheHit.baseDataPath ['p'] ['q']) = none ∧
    (FSStorage.delete wsCacheHit ['p'] ['q']).2 = Except.ok false := by
  decide

/-! ### Claim C7 -/

/-- C7 (opened-times bookkeeping): `put` initializes the counter to 0 at
insertion, but `FSStorage.get` performs no state update at all (its result
is only a handle), so a successful cache-hit read leaves the counter at 0.
The claim that each cache-hit `get` increments the counter therefore
contradicts the recorded intent of the field (`# Times the cached file
being opened`): the count of read accesses is never maintained. -/
theorem get_does_not_increment_opened_times :
    FSStorage.get wsCacheHit ['p'] ['q'] false
        = Except.ok (Handle.scopedCM { obj := some 0 }) ∧
    getEntry wsCacheHit.cacheOpenedTimes (storeKey ['p'] ['q']) = some 0 := by
  decide

/-! ### Claim C9 -/

/-- C9 amended (get not-found): `get` fails with the "File not existing."
error if and only if the key is absent from the cache and nothing exists at
the on-disk path; and whenever the key is cached or a regular file exists
at the path, `get` returns a readable handle.  (When a directory occupies
the path, `get` does not raise the not-found error but does not return a
readable handle either — see the counterexample.) -/
theorem get_not_found_iff (s : FSState) (path name : PStr) (sync : Bool) :
    (FSStorage.get s path name sync = Except.error GetError.fileNotExisting ↔
      (getEntry s.cache (storeKey path name) = none ∧
       pathExists s (filePathStr s.baseDataPath path name) = false)) ∧
    (getEntry s.cache (storeKey path name) ≠ none ∨
       (getEntry s.files (filePathStr s.baseDataPath path name)).isSome = true →
      ∃ h, FSStorage.get s path name sync = Except.ok h ∧ h.readable = true) := by
  rcases hc : getEntry s.cache (storeKey path name) with _ | sid
  · by_cases hex : pathExists s (filePathStr s.baseDataPath path name) = true
    · rcases hfile : getEntry s.files (filePathStr s.baseDataPath path name) with _ | v
      · cases sync
        · constructor
          · simp [FSStorage.get, hc, hex, hfile]
          · intro hor
            rcases hor with hl | hr
            · exact absurd rfl hl
            · simp at hr
        · constructor
          · simp [FSStorage.get, hc, hex, hfile]
          · intro hor
            rcases hor with hl | hr
            · exact absurd rfl hl
            · simp at hr
      · cases sync
        · refine ⟨by simp [FSStorage.get, hc, hex, hfile], fun _ => ?_⟩
          refine ⟨Handle.diskAsync (some v), ?_, rfl⟩
          simp [FSStorage.get, hc, hex, hfile]
        · refine ⟨by simp [FSStorage.get, hc, hex, hfile], fun _ => ?_⟩
          refine ⟨Handle.diskSync v, ?_, rfl⟩
          simp [FSStorage.get, hc, hex, hfile]
    · have hex' : pathExists s (filePathStr s.baseDataPath path name) = false := by
        simpa using hex
      have hfile : getEntry s.files (filePathStr s.baseDataPath path name) = none := by
        rcases hfe : getEntry s.files (filePathStr s.baseDataPath path name) with _ | v
        · rfl
        · exfalso
          apply hex
          unfold pathExists pexists
          rw [hfe]
          simp
      constructor
      · simp [FSStorage.get, hc, hex', hfile]
      · intro hor
        rcases hor with hl | hr
        · exact absurd rfl hl
        · rw [hfile] at hr
          simp at hr
  · have hready : ∃ h, FSStorage.get s path name sync = Except.ok h ∧ h.readable = true := by
      cases sync
      · exact ⟨Handle.scopedCM { obj := some sid }, by simp [FSStorage.get, hc], rfl⟩
      · by_cases hk : streamKindAt s sid = StreamKind.syncBuffered
        · exact ⟨Handle.syncDirect sid, by simp [FSStorage.get, hc, hk], rfl⟩
        · exact ⟨Handle.syncWrapped (streamContents s sid),
            by simp [FSStorage.get, wrap_obj, hc, hk], rfl⟩
    constructor
    · obtain ⟨h, hg, _⟩ := hready
      rw [hg]
      constructor
      · intro hcon
        cases hcon
      · intro hcon
        exact Option.noConfusion hcon.1
    · intro _
      exact hready

theorem get_not_found_iff_witness :
    getEntry (initState ['r'] [] [] []).cache (storeKey ['p'] ['q']) = none ∧
    ((FSStorage.get (initState ['r'] [] [] []) ['p'] ['q'] true
        = Except.error GetError.fileNotExisting ↔
      (getEntry (initState ['r'] [] [] []).cache (storeKey ['p'] ['q']) = none ∧
       pathExists (initState ['r'] [] [] [])
         (filePathStr (initState ['r'] [] [] []).baseDataPath ['p'] ['q']) = false)) ∧
    (getEntry (initState ['r'] [] [] []).cache (storeKey ['p'] ['q']) ≠ none ∨
       (getEntry (initState ['r'] [] [] []).files
         (filePathStr (initState ['r'] [] [] []).baseDataPath ['p'] ['q'])).isSome = true →
      ∃ h, FSStorage.get (initState ['r'] [] [] []) ['p'] ['q'] true = Except.ok h ∧
        h.readable = true)) :=
  ⟨by decide, get_not_found_iff (initState ['r'] [] [] []) ['p'] ['q'] true⟩

/-- The state left by a completed `put` under path `a/b`: the directory
`r/a/b` now exists on disk. -/
def cexDirState : FSState :=
  (FSStorage.put (initState ['r'] [] [] [⟨StreamKind.syncBuffered, [1, 2], false⟩])
    ['a', '/', 'b'] ['c'] 0 false false).1

/-- C9 counterexample: for key `(a, b)` the cache is empty and the on-disk
path `r/a/b` exists (as a directory created by an earlier put), so by the
claim `get` should return a readable handle; instead the blocking read
raises `IsADirectoryError`. -/
theorem get_on_directory_not_readable :
    getEntry cexDirState.cache (storeKey ['a'] ['b']) = none ∧
    pathExists cexDirState (filePathStr cexDirState.baseDataPath ['a'] ['b']) = true ∧
    FSStorage.get cexDirState ['a'] ['b'] true = Except.error GetError.isADirectory := by
  decide

/-! ### `_prepare_path` correctness lemmas used for C3 and C4 -/

theorem joinF_mem_chainAcc : ∀ (rest : List PStr) (cur seg : PStr),
    joinF cur (seg :: rest) ∈ chainAcc cur (seg :: rest) := by
  intro rest
  induction rest with
  | nil => intro cur seg; simp [joinF, chainAcc]
  | cons s2 r2 ih =>
    intro cur seg
    simp only [chainAcc, joinF_cons]
    exact List.mem_cons_of_mem _ (ih (cur ++ '/' :: seg) s2)

theorem preparePath_ok_of_clean (s : FSState) (path : PStr)
    (hclean : ∀ d ∈ chainDirs s.baseDataPath path, getEntry s.files d = none) :
    (preparePath s path).2 = Except.ok (s.baseDataPath ++ '/' :: path) := by
  have hchain : ∀ d ∈ chainAcc s.baseDataPath ((splitCh '/' path).1 :: (splitCh '/' path).2),
      getEntry s.files d = none := by
    intro d hd
    exact hclean d (by simp [chainDirs, hd])
  have hres : ∀ dirs0 : List PStr, memb s.baseDataPath dirs0 = true →
      (prepareWalkDirs s.files dirs0 s.baseDataPath
          ((splitCh '/' path).1 :: (splitCh '/' path).2)).2
        = Except.ok (s.baseDataPath ++ '/' :: path) := by
    intro dirs0 hmem
    rw [prepareWalkDirs_ok_of_clean s.files _ dirs0 s.baseDataPath hmem hchain]
    rw [joinF_splitCh]
  simp only [preparePath]
  by_cases hex : pathExists s s.baseDataPath = true
  · rw [if_pos hex]
    apply hres
    have hbf : getEntry s.files s.baseDataPath = none := hclean _ (by simp [chainDirs])
    unfold pathExists pexists at hex
    rw [hbf] at hex
    simpa using hex
  · rw [if_neg hex]
    apply hres
    simp [memb]

theorem preparePath_ok_dir_val (s : FSState) (path : PStr) (s1 : FSState) (dir : PStr)
    (hpr : preparePath s path = (s1, Except.ok dir)) :
    dir = s.baseDataPath ++ '/' :: path := by
  have h2 : (preparePath s path).2 = Except.ok dir := by rw [hpr]
  simp only [preparePath] at h2
  have := prepareWalkDirs_ok_dir s.files _ _ _ dir h2
  rw [this, joinF_splitCh]

theorem preparePath_new_dirs (s : FSState) (path : PStr) (x : PStr)
    (hx : x ∈ (preparePath s path).1.dirs) :
    x ∈ s.dirs ∨ x = s.baseDataPath
      ∨ x ∈ chainAcc s.baseDataPath ((splitCh '/' path).1 :: (splitCh '/' path).2) := by
  simp only [preparePath] at hx
  rcases prepareWalkDirs_dirs_from s.files _ _ _ x hx with h | h
  · by_cases hex : pathExists s s.baseDataPath = true
    · rw [if_pos hex] at h
      exact Or.inl h
    · rw [if_neg hex] at h
      rcases List.mem_cons.mp h with h | h
      · exact Or.inr (Or.inl h)
      · exact Or.inl h
  · exact Or.inr (Or.inr h)

theorem preparePath_covers (s : FSState) (path : PStr) (s1 : FSState) (dir : PStr)
    (hpr : preparePath s path = (s1, Except.ok dir)) :
    ∀ d ∈ chainDirs s.baseDataPath path, pexists s.files s1.dirs d = true := by
  have h1 : s1.dirs = (preparePath s path).1.dirs := by rw [hpr]
  have h2 : (preparePath s path).2 = Except.ok dir := by rw [hpr]
  simp only [preparePath] at h1 h2
  intro d hd
  rw [h1]
  simp only [chainDirs] at hd
  rcases List.mem_cons.mp hd with hdb | hdc
  · subst hdb
    by_cases hex : pathExists s s.baseDataPath = true
    · rw [if_pos hex]
      refine pexists_mono s.files s.dirs _ _
        (fun y hy => prepareWalkDirs_mono s.files _ s.dirs _ y hy) ?_
      exact hex
    · rw [if_neg hex]
      refine Bool.or_eq_true_iff.mpr (Or.inr ((memb_iff _ _).mpr ?_))
      exact prepareWalkDirs_mono s.files _ _ _ _ (List.mem_cons_self _ _)
  · by_cases hex : pathExists s s.baseDataPath = true
    · rw [if_pos hex] at h2 ⊢
      exact prepareWalkDirs_covers s.files _ _ _ dir h2 d hdc
    · rw [if_neg hex] at h2 ⊢
      exact prepareWalkDirs_covers s.files _ _ _ dir h2 d hdc

theorem dest_eq_filePathStr (base path name : PStr) :
    (base ++ '/' :: path) ++ '/' :: name = filePathStr base path name := by
  simp [filePathStr]

theorem preparePath_fp_not_dir (s : FSState) (path name : PStr) (s1 : FSState) (dir : PStr)
    (hpr : preparePath s path = (s1, Except.ok dir))
    (hfpd : memb (dir ++ '/' :: name) s.dirs = false) :
    memb (dir ++ '/' :: name) s1.dirs = false := by
  have hdirval : dir = s.baseDataPath ++ '/' :: path := preparePath_ok_dir_val s path s1 dir hpr
  have hjoin : joinF s.baseDataPath ((splitCh '/' path).1 :: (splitCh '/' path).2) = dir := by
    rw [joinF_splitCh, hdirval]
  by_cases hmem : memb (dir ++ '/' :: name) s1.dirs = true
  · exfalso
    have hmem' : (dir ++ '/' :: name) ∈ s1.dirs := (memb_iff _ _).mp hmem
    have h1 : (dir ++ '/' :: name) ∈ (preparePath s path).1.dirs := by
      rw [hpr]
      exact hmem'
    rcases preparePath_new_dirs s path _ h1 with h | h | h
    · rw [(memb_iff _ _).mpr h] at hfpd
      cases hfpd
    · have : s.baseDataPath.length < (dir ++ '/' :: name).length := by
        rw [hdirval]
        simp [List.length_append]
      rw [h] at this
      omega
    · have hle := chainAcc_length_le _ _ _ h
      rw [hjoin] at hle
      have : dir.length < (dir ++ '/' :: name).length := by
        simp [List.length_append]
      omega
  · simpa using hmem

/-! ### The successful write of `put` (shared by C3 and C4) -/

theorem put_ok_writes (s : FSState) (path name : PStr) (fileId : StreamId) (force : Bool)
    (hclean : ∀ d ∈ chainDirs s.baseDataPath path, getEntry s.files d = none)
    (hfpd : memb (filePathStr s.baseDataPath path name) s.dirs = false)
    (hok : (FSStorage.put s path name fileId force false).2 = Except.ok ()) :
    getEntry (FSStorage.put s path name fileId force false).1.files
        (filePathStr s.baseDataPath path name)
      = some (streamContents s fileId) ∧
    ∀ d ∈ chainDirs s.baseDataPath path, pathExists s d = false →
      d ∈ (FSStorage.put s path name fileId force false).1.dirs := by
  simp only [FSStorage.put] at hok ⊢
  obtain ⟨s1, dir, hpr, hnc, heq⟩ :=
    putFinish_ok_cases (putInsert s path name fileId).1 path name fileId force
      (putInsert s path name fileId).2 false hok
  rw [heq]
  have hdirval : dir = s.baseDataPath ++ '/' :: path :=
    preparePath_ok_dir_val (putInsert s path name fileId).1 path s1 dir hpr
  have hfp : dir ++ '/' :: name = filePathStr s.baseDataPath path name := by
    rw [hdirval]
    exact dest_eq_filePathStr _ _ _
  have hjoin : joinF s.baseDataPath ((splitCh '/' path).1 :: (splitCh '/' path).2) = dir := by
    rw [joinF_splitCh]
    exact hdirval.symm
  have hcovers : ∀ d ∈ chainDirs s.baseDataPath path, pexists s.files s1.dirs d = true :=
    preparePath_covers (putInsert s path name fileId).1 path s1 dir hpr
  have hfpnd : memb (dir ++ '/' :: name) s1.dirs = false := by
    refine preparePath_fp_not_dir (putInsert s path name fileId).1 path name s1 dir hpr ?_
    rw [hfp]
    exact hfpd
  have hdmem : dir ∈ chainDirs s.baseDataPath path := by
    rw [← hjoin]
    simp only [chainDirs]
    exact List.mem_cons_of_mem _ (joinF_mem_chainAcc _ _ _)
  have hmemdir : memb dir s1.dirs = true := by
    have hpex := hcovers dir hdmem
    have hdf : getEntry s.files dir = none := hclean dir hdmem
    unfold pexists at hpex
    rw [hdf] at hpex
    simpa using hpex
  have hs1str : s1.streams = s.streams := by
    have hs1 : s1 = (preparePath (putInsert s path name fileId).1 path).1 := by rw [hpr]
    rw [hs1, preparePath_streams, putInsert_streams]
  have hsc : streamContents s1 fileId = streamContents s fileId := by
    unfold streamContents
    rw [hs1str]
  have hguard : (memb (dir ++ '/' :: name) s1.dirs || !(memb dir s1.dirs)) = false := by
    rw [hfpnd, hmemdir]
    rfl
  constructor
  · simp only [putClose_files, putRetire_files]
    show getEntry (putWriteFiles s1 dir (dir ++ '/' :: name) fileId false)
        (filePathStr s.baseDataPath path name) = some (streamContents s fileId)
    unfold putWriteFiles
    rw [if_neg (by rw [hguard]; simp)]
    rw [if_neg (by simp)]
    rw [hfp, getEntry_setEntry_self]
    exact congrArg some hsc
  · intro d hd hpe
    simp only [putClose_dirs, putRetire_dirs, putWriteState_dirs]
    have hpex := hcovers d hd
    unfold pexists at hpex
    rcases Bool.or_eq_true_iff.mp hpex with hl | hr
    · exfalso
      unfold pathExists pexists at hpe
      rw [hl] at hpe
      simp at hpe
    · exact (memb_iff _ _).mp hr

/-- A put with `force = true` over a chain free of blocking files always
resolves (the existence check is skipped and every write error is
swallowed). -/
theorem put_force_resolves (s : FSState) (path name : PStr) (fileId : StreamId)
    (ioFault : Bool)
    (hclean : ∀ d ∈ chainDirs s.baseDataPath path, getEntry s.files d = none) :
    (FSStorage.put s path name fileId true ioFault).2 = Except.ok () := by
  simp only [FSStorage.put]
  have h2 : (preparePath (putInsert s path name fileId).1 path).2
      = Except.ok (s.baseDataPath ++ '/' :: path) :=
    preparePath_ok_of_clean (putInsert s path name fileId).1 path hclean
  rcases hpr : preparePath (putInsert s path name fileId).1 path with ⟨s1, r⟩
  rw [hpr] at h2
  cases r with
  | error e => simp at h2
  | ok dir =>
    rw [putFinish_ok_shape _ path name fileId true _ ioFault s1 dir hpr (by simp)]

/-! ### Claim C4 -/

/-- C4 (eventual disk durability with directory auto-creation,
`spec-modelled` for the byte-copy collaborator): when no file blocks the
directory chain, no directory occupies the destination path, and the put
resolves without raising (run without an I/O fault), the on-disk file at
`<base>/<path>/<name>` holds exactly the bytes of the stream that was put,
and every directory of the chain that was missing before the call has been
created by it. -/
theorem put_disk_durability (s : FSState) (path name : PStr) (fileId : StreamId)
    (force : Bool)
    (hclean : ∀ d ∈ chainDirs s.baseDataPath path, getEntry s.files d = none)
    (hfpd : memb (filePathStr s.baseDataPath path name) s.dirs = false)
    (hok : (FSStorage.put s path name fileId force false).2 = Except.ok ()) :
    getEntry (FSStorage.put s path name fileId force false).1.files
        (filePathStr s.baseDataPath path name)
      = some (streamContents s fileId) ∧
    ∀ d ∈ chainDirs s.baseDataPath path, pathExists s d = false →
      d ∈ (FSStorage.put s path name fileId force false).1.dirs :=
  put_ok_writes s path name fileId force hclean hfpd hok

/-- A fresh store over an empty filesystem with one open input stream. -/
def wsFresh : FSState :=
  initState ['r'] [] [] [⟨StreamKind.syncBuffered, [1, 2], false⟩]

theorem put_disk_durability_witness :
    (∀ d ∈ chainDirs wsFresh.baseDataPath ['a', '/', 'b'], getEntry wsFresh.files d = none) ∧
    memb (filePathStr wsFresh.baseDataPath ['a', '/', 'b'] ['c']) wsFresh.dirs = false ∧
    (FSStorage.put wsFresh ['a', '/', 'b'] ['c'] 0 false false).2 = Except.ok () ∧
    (getEntry (FSStorage.put wsFresh ['a', '/', 'b'] ['c'] 0 false false).1.files
        (filePathStr wsFresh.baseDataPath ['a', '/', 'b'] ['c'])
      = some (streamContents wsFresh 0) ∧
     ∀ d ∈ chainDirs wsFresh.baseDataPath ['a', '/', 'b'],
       pathExists wsFresh d = false →
       d ∈ (FSStorage.put wsFresh ['a', '/', 'b'] ['c'] 0 false false).1.dirs) :=
  ⟨by decide, by decide, by decide,
    put_disk_durability wsFresh ['a', '/', 'b'] ['c'] 0 false (by decide) (by decide) (by decide)⟩

/-! ### Claim C3 -/

/-- C3 (conflict rejection without rollback): when a file already exists at
the destination path (and nothing blocks the directory chain), a `put` with
`force = false` fails with the "File already existing." error raised before
any copy is attempted (the file map is unchanged), while the cache
insertion made at the start of the call is not rolled back — `get` still
returns the staged stream with its contents; the same `put` with
`force = true` resolves and overwrites the existing file. -/
theorem put_conflict_rejection (s : FSState) (path name : PStr) (fileId : StreamId)
    (ioFault : Bool)
    (hfile : (getEntry s.files (filePathStr s.baseDataPath path name)).isSome = true)
    (hclean : ∀ d ∈ chainDirs s.baseDataPath path, getEntry s.files d = none)
    (hfpd : memb (filePathStr s.baseDataPath path name) s.dirs = false) :
    ((FSStorage.put s path name fileId false ioFault).2
        = Except.error PutError.alreadyExists ∧
     (FSStorage.put s path name fileId false ioFault).1.files = s.files ∧
     getEntry (FSStorage.put s path name fileId false ioFault).1.cache (storeKey path name)
       = some fileId ∧
     FSStorage.get (FSStorage.put s path name fileId false ioFault).1 path name false
       = Except.ok (Handle.scopedCM { obj := some fileId }) ∧
     handleContents (FSStorage.put s path name fileId false ioFault).1
         (Handle.scopedCM { obj := some fileId })
       = streamContents s fileId) ∧
    ((FSStorage.put s path name fileId true false).2 = Except.ok () ∧
     getEntry (FSStorage.put s path name fileId true false).1.files
         (filePathStr s.baseDataPath path name)
       = some (streamContents s fileId)) := by
  constructor
  · simp only [FSStorage.put]
    have h2 : (preparePath (putInsert s path name fileId).1 path).2
        = Except.ok (s.baseDataPath ++ '/' :: path) :=
      preparePath_ok_of_clean (putInsert s path name fileId).1 path hclean
    rcases hpr : preparePath (putInsert s path name fileId).1 path with ⟨s1, r⟩
    rw [hpr] at h2
    cases r with
    | error e => simp at h2
    | ok dir =>
      have hdir : dir = s.baseDataPath ++ '/' :: path := by
        simpa using h2
      have hfp : dir ++ '/' :: name = filePathStr s.baseDataPath path name := by
        rw [hdir]
        exact dest_eq_filePathStr _ _ _
      have hs1files : s1.files = s.files := by
        have hs1 : s1 = (preparePath (putInsert s path name fileId).1 path).1 := by rw [hpr]
        rw [hs1, preparePath_files, putInsert_files]
      have hcond : (!false && pathExists s1 (dir ++ '/' :: name)) = true := by
        unfold pathExists pexists
        rw [hs1files, hfp, hfile]
        rfl
      rw [putFinish_conflict _ path name fileId false _ ioFault s1 dir hpr hcond]
      have hs1cache : s1.cache = setEntry s.cache (storeKey path name) fileId := by
        have hs1 : s1 = (preparePath (putInsert s path name fileId).1 path).1 := by rw [hpr]
        rw [hs1, preparePath_cache]
        rfl
      have hcache : getEntry s1.cache (storeKey path name) = some fileId := by
        rw [hs1cache]
        exact getEntry_setEntry_self _ _ _
      have hs1str : s1.streams = s.streams := by
        have hs1 : s1 = (preparePath (putInsert s path name fileId).1 path).1 := by rw [hpr]
        rw [hs1, preparePath_streams, putInsert_streams]
      refine ⟨rfl, hs1files, hcache, ?_, ?_⟩
      · simp [FSStorage.get, hcache]
      · simp [handleContents, streamContents, hs1str]
  · have hok := put_force_resolves s path name fileId false hclean
    exact ⟨hok, (put_ok_writes s path name fileId true hclean hfpd hok).1⟩

theorem put_conflict_rejection_witness :
    (getEntry cexAlready.files (filePathStr cexAlready.baseDataPath ['p'] ['q'])).isSome
        = true ∧
    (((FSStorage.put cexAlready ['p'] ['q'] 0 false false).2
        = Except.error PutError.alreadyExists ∧
      (FSStorage.put cexAlready ['p'] ['q'] 0 false false).1.files = cexAlready.files ∧
      getEntry (FSStorage.put cexAlready ['p'] ['q'] 0 false false).1.cache
          (storeKey ['p'] ['q'])
        = some 0 ∧
      FSStorage.get (FSStorage.put cexAlready ['p'] ['q'] 0 false false).1 ['p'] ['q'] false
        = Except.ok (Handle.scopedCM { obj := some 0 }) ∧
      handleContents (FSStorage.put cexAlready ['p'] ['q'] 0 false false).1
          (Handle.scopedCM { obj := some 0 })
        = streamContents cexAlready 0) ∧
     ((FSStorage.put cexAlready ['p'] ['q'] 0 true false).2 = Except.ok () ∧
      getEntry (FSStorage.put cexAlready ['p'] ['q'] 0 true false).1.files
          (filePathStr cexAlready.baseDataPath ['p'] ['q'])
        = some (streamContents cexAlready 0))) :=
  ⟨by decide, put_conflict_rejection cexAlready ['p'] ['q'] 0 false (by decide) (by decide)
    (by decide)⟩
